import Mathlib

/-!
Shallow embedding of `src/DataETL.py` (class `DataETL`): a three-stage ETL
pipeline that loads tabular files from a directory, merges and normalizes
them (timestamp coercion to UTC, dropping unparseable rows, chronological
sort), and materializes the result into a SQLite table.

Modelling conventions:
* A table (`pandas.DataFrame`) is a column-name list plus a list of rows;
  a row is an association list from column name to `Cell`.  A row lacking
  a key holds an implicit null in that column (pandas NaN after `concat`).
* A cell in the timestamp column carries its parse outcome structurally:
  `dtNaive t` is a string that parses as a timezone-naive instant whose
  fields, read as UTC, denote epoch value `t`; `dtAware t off` parses with
  an explicit UTC offset `off` (instant = `t - off`); `bad` is an
  unparseable string; `instant t` is an already tz-aware UTC value
  (`pd.Timestamp` with `tz='UTC'`); `int n` is numeric data (which
  `pd.to_datetime` reads as an epoch value).
* `pd.to_datetime(col, errors='coerce', utc=True)` maps each cell to a UTC
  instant or to `NaT` (modelled as `Cell.null`): per the pandas contract,
  timezone-naive inputs are localized as UTC and timezone-aware inputs are
  converted to UTC; unparseable/missing values coerce to `NaT`.
* `DataFrame.sort_values('datetime')` uses the default `kind='quicksort'`:
  pandas computes `values.argsort(kind='quicksort')` on the int64 epoch
  values, which is numpy's introsort (`aquicksort`).  The index-level
  algorithm is translated below (`npArgsort`): median-of-3 quicksort with
  an explicit stack, insertion sort for ranges of at most
  `SMALL_QUICKSORT = 15` gaps (i.e. at most 16 elements), and a heapsort
  fallback once the depth budget `2 * msb(n)` is exhausted.  Loops are
  given explicit fuel; every mutation of the index list is an `aswap` or a
  sorted-slice write-back, so the result is a permutation for any fuel.
* The SQLite store is a named-table map; `to_sql(..., if_exists='replace')`
  replaces the table under that name.  A write failure (caught
  `Exception` in `create_database`) leaves the store unchanged and is
  only logged.
-/

/-- Cell values, with the parse outcome of timestamp strings made
structural (see module docstring). -/
inductive Cell where
  | null : Cell
  | int : Int → Cell
  | dtNaive : Int → Cell
  | dtAware : Int → Int → Cell
  | instant : Int → Cell
  | bad : Cell
deriving DecidableEq, Repr

/-- A row: association list from column name to cell. -/
abbrev Row := List (String × Cell)

/-- Reading a column from a row; a missing key is an implicit null
(pandas null-fills missing columns on `concat`). -/
def rowGet : Row → String → Cell
  | [], _ => Cell.null
  | (k, v) :: r, c => if k = c then v else rowGet r c

/-- A pandas DataFrame: ordered column names and ordered rows. -/
structure DataFrame where
  cols : List String
  rows : List Row
deriving DecidableEq, Repr

/-- Well-formedness of a loaded table: distinct column names, and every row
binds exactly the columns in order (this is what `pd.read_csv` /
`pd.read_parquet` produce). -/
def DataFrame.WF (df : DataFrame) : Prop :=
  df.cols.Nodup ∧ ∀ r ∈ df.rows, r.map Prod.fst = df.cols

instance (df : DataFrame) : Decidable df.WF := by
  unfold DataFrame.WF; infer_instance

/-- Column set of `pd.concat`: union of the input column sets in order of
first appearance (default `sort=False`). -/
def unionCols (dfs : List DataFrame) : List String :=
  dfs.foldl (fun acc df => acc ++ df.cols.filter (fun c => decide (c ∉ acc))) []

/-- Embedding of `pd.concat(all_dfs, ignore_index=True)` (line 47): rows are
stacked in input order, the column set is the union; a row from a table
lacking some column holds an implicit null there (`rowGet` default). -/
def concatDFs (dfs : List DataFrame) : DataFrame :=
  { cols := unionCols dfs, rows := (dfs.map DataFrame.rows).flatten }

/-- Renaming of one key in a row, as `DataFrame.rename(columns={...})`
relabels every occurrence of the column label. -/
def renameKey (a b : String) (r : Row) : Row :=
  r.map (fun kv => if kv.1 = a then (b, kv.2) else kv)

/-- Embedding of `combined_df.rename(columns={'DATETIME': 'datetime'})`. -/
def renameDF (a b : String) (df : DataFrame) : DataFrame :=
  { cols := df.cols.map (fun c => if c = a then b else c),
    rows := df.rows.map (renameKey a b) }

/-- Lines 46-51: the merged table after the conditional rename
(`if 'DATETIME' in self.combined_df.columns`). -/
def renamedOf (dfs : List DataFrame) : DataFrame :=
  let m := concatDFs dfs
  if "DATETIME" ∈ m.cols then renameDF "DATETIME" "datetime" m else m

/-- Parse outcome of `pd.to_datetime(cell, utc=True)` on one cell: `none` is
`NaT` (null or unparseable input); a naive instant is localized as UTC
unchanged; an aware instant is converted to UTC by subtracting its offset;
numeric input is read as an epoch value. -/
def toInstant : Cell → Option Int
  | Cell.null => none
  | Cell.bad => none
  | Cell.dtNaive t => some t
  | Cell.dtAware t off => some (t - off)
  | Cell.instant t => some t
  | Cell.int n => some n

/-- Coercion of one cell by `pd.to_datetime(.., errors='coerce', utc=True)`:
a parseable value becomes a UTC instant, anything else becomes `NaT`
(modelled as null). -/
def coerceCell (c : Cell) : Cell :=
  match toInstant c with
  | some t => Cell.instant t
  | none => Cell.null

/-- Replacing the `datetime` column of one row by its coerced value
(line 55's column assignment, per row). -/
def coerceRow (r : Row) : Row :=
  r.map (fun kv => if kv.1 = "datetime" then (kv.1, coerceCell kv.2) else kv)

/-- Line 55: `combined_df['datetime'] = pd.to_datetime(combined_df['datetime'],
errors='coerce', utc=True)`. -/
def coerceDF (df : DataFrame) : DataFrame :=
  { df with rows := df.rows.map coerceRow }

/-- Line 56: `combined_df.dropna(subset=['datetime'], inplace=True)` — after
the coercion the `datetime` cell is an instant or `NaT` (null); rows whose
cell is null (including rows never binding the column) are removed. -/
def dropDF (df : DataFrame) : DataFrame :=
  { df with rows := df.rows.filter (fun r => decide (rowGet r "datetime" ≠ Cell.null)) }

/-- Sort key of a (post-coercion) row: its `datetime` instant, as the int64
epoch value pandas sorts on.  Rows without an instant were dropped before
the sort ever runs; 0 is a don't-care default. -/
def keyOf (r : Row) : Int :=
  match rowGet r "datetime" with
  | Cell.instant t => t
  | _ => 0

/-! ### numpy argsort, `kind='quicksort'` (introsort), on the key list

Translation of numpy's `aquicksort_` / `aheapsort_` specialised to int64
keys, operating on an index list `l` (the `tosort` buffer).  `kAt keys l i`
is `v[tosort[i]]`.  The heapsort sift is written with explicit swaps; the
hole-shifting optimisation in the C source computes the same cyclic
rotation with the same comparison outcomes, so the resulting index array is
identical. -/

/-- Key lookup through the index list: `v[tosort[i]]`. -/
def kAt (keys : List Int) (l : List Nat) (i : Nat) : Int :=
  keys.getD (l.getD i 0) 0

/-- Swap of two positions of the index list (`INTP_SWAP(*pi, *pj)`);
out-of-range positions cannot occur in the algorithm, the guard only makes
the function total. -/
def aswap (l : List Nat) (i j : Nat) : List Nat :=
  if i < l.length ∧ j < l.length then
    (l.set i (l.getD j 0)).set j (l.getD i 0)
  else l

/-- Stable insertion of an index into an already-processed prefix: the new
element moves left only past strictly greater keys (`LT(vp, v[*pk])`), so it
lands after any equal key. -/
def insertStable (keys : List Int) (x : Nat) : List Nat → List Nat
  | [] => [x]
  | y :: ys =>
    if keys.getD x 0 < keys.getD y 0 then x :: y :: ys
    else y :: insertStable keys x ys

/-- The insertion sort numpy runs on ranges of at most 16 elements
(`SMALL_QUICKSORT = 15` gaps), as a functional fold: process elements left
to right, inserting each after equal keys — the stable sort of the index
slice. -/
def stableSortIdx (keys : List Int) (l : List Nat) : List Nat :=
  l.foldl (fun acc x => insertStable keys x acc) []

/-- Insertion sort of the index slice `l[pl..pr]` in place (the small-range
branch of `aquicksort_`). -/
def sliceInsertion (keys : List Int) (l : List Nat) (pl pr : Nat) : List Nat :=
  l.take pl ++ stableSortIdx keys ((l.drop pl).take (pr + 1 - pl)) ++ (l.drop pl).drop (pr + 1 - pl)

/-- Scan `do ++pi; while LT(v[*pi], vp)`. -/
def scanUp (keys : List Int) (l : List Nat) (vp : Int) : Nat → Nat → Nat
  | 0, i => i + 1
  | f + 1, i =>
    let i' := i + 1
    if kAt keys l i' < vp then scanUp keys l vp f i' else i'

/-- Scan `do --pj; while LT(vp, v[*pj])`. -/
def scanDown (keys : List Int) (l : List Nat) (vp : Int) : Nat → Nat → Nat
  | 0, j => j - 1
  | f + 1, j =>
    let j' := j - 1
    if vp < kAt keys l j' then scanDown keys l vp f j' else j'

/-- The partition exchange loop of `aquicksort_` (pivot value `vp`): scan
from both ends, swap, until the cursors cross; returns the final index list
and cursor `pi`. -/
def partScan (keys : List Int) (vp : Int) : Nat → List Nat → Nat → Nat → List Nat × Nat
  | 0, l, pi, _ => (l, pi)
  | f + 1, l, pi, pj =>
    let n := l.length
    let pi' := scanUp keys l vp (n + 2) pi
    let pj' := scanDown keys l vp (n + 2) pj
    if pj' ≤ pi' then (l, pi')
    else partScan keys vp f (aswap l pi' pj') pi' pj'

/-- One median-of-3 partition of the range `[pl, pr]`: the three median
swaps, pivot stashed at `pr - 1`, exchange scan, pivot swapped to its final
position `pi`. -/
def partitionRange (keys : List Int) (l : List Nat) (pl pr : Nat) : List Nat × Nat :=
  let pm := pl + (pr - pl) / 2
  let l1 := if kAt keys l pm < kAt keys l pl then aswap l pm pl else l
  let l2 := if kAt keys l1 pr < kAt keys l1 pm then aswap l1 pr pm else l1
  let l3 := if kAt keys l2 pm < kAt keys l2 pl then aswap l2 pm pl else l2
  let vp := kAt keys l3 pm
  let l4 := aswap l3 pm (pr - 1)
  let s := partScan keys vp (l4.length + 2) l4 pl (pr - 1)
  (aswap s.1 s.2 (pr - 1), s.2)

/-- Key at 1-based heap position `h` of the range starting at `pl`. -/
def kAtH (keys : List Int) (l : List Nat) (pl h : Nat) : Int :=
  kAt keys l (pl + h - 1)

/-- Sift-down of `aheapsort_` over the 1-based heap `1..nh` offset at `pl`,
written with explicit swaps (the C hole-shifting computes the same
rotation with the same comparisons). -/
def siftLoop (keys : List Int) (pl nh : Nat) : Nat → List Nat → Nat → List Nat
  | 0, l, _ => l
  | f + 1, l, i =>
    let j := 2 * i
    if nh < j then l
    else
      let j' := if j < nh ∧ kAtH keys l pl j < kAtH keys l pl (j + 1) then j + 1 else j
      if kAtH keys l pl i < kAtH keys l pl j' then
        siftLoop keys pl nh f (aswap l (pl + i - 1) (pl + j' - 1)) j'
      else l

/-- Heap construction: `for (l = n >> 1; l > 0; --l)` sift. -/
def heapBuild (keys : List Int) (pl nh : Nat) : Nat → List Nat → List Nat
  | 0, l => l
  | st + 1, l => heapBuild keys pl nh st (siftLoop keys pl nh (nh + 2) l (st + 1))

/-- Heap extraction: `for (; n > 1;)` swap root with last, shrink, sift. -/
def heapExtract (keys : List Int) (pl : Nat) : Nat → List Nat → List Nat
  | 0, l => l
  | 1, l => l
  | m + 2, l =>
    let l' := aswap l (pl + 1 - 1) (pl + (m + 2) - 1)
    heapExtract keys pl (m + 1) (siftLoop keys pl (m + 1) (m + 3) l' 1)

/-- Embedding of `aheapsort_` on the index range `[pl, pr]`. -/
def heapRange (keys : List Int) (l : List Nat) (pl pr : Nat) : List Nat :=
  let nh := pr + 1 - pl
  heapExtract keys pl nh (heapBuild keys pl nh (nh / 2) l)

/-- The driver loop of `aquicksort_`: an explicit work stack, the current
range `[pl, pr]`, and the global depth budget.  Ranges of more than
`SMALL_QUICKSORT = 15` gaps are partitioned (heapsort once the budget is
spent, mirroring `depth_limit-- < 0`), the larger side is pushed; small
ranges are insertion sorted and the stack popped. -/
def qsLoop (keys : List Int) : Nat → List Nat → Nat → Nat → Int → List (Nat × Nat) → List Nat
  | 0, l, _, _, _, _ => l
  | fuel + 1, l, pl, pr, depth, stack =>
    if 15 < pr - pl then
      if depth < 0 then
        let l' := heapRange keys l pl pr
        match stack with
        | [] => l'
        | (pl', pr') :: rest => qsLoop keys fuel l' pl' pr' depth rest
      else
        let p := partitionRange keys l pl pr
        let pi := p.2
        if pi - pl < pr - pi then
          qsLoop keys fuel p.1 pl (pi - 1) (depth - 1) ((pi + 1, pr) :: stack)
        else
          qsLoop keys fuel p.1 (pi + 1) pr (depth - 1) ((pl, pi - 1) :: stack)
    else
      let l' := sliceInsertion keys l pl pr
      match stack with
      | [] => l'
      | (pl', pr') :: rest => qsLoop keys fuel l' pl' pr' depth rest

/-- Embedding of `np.argsort(keys, kind='quicksort')`: for at most 16 keys the driver
loop degenerates to one insertion sort of the whole range; otherwise the
introsort runs with depth budget `2 * msb(n)`. -/
def npArgsort (keys : List Int) : List Nat :=
  let n := keys.length
  if n ≤ 16 then stableSortIdx keys (List.range n)
  else qsLoop keys (2 * n + 32) (List.range n) 0 (n - 1) (2 * Int.ofNat (Nat.log2 n)) []

/-- Line 57: `combined_df.sort_values('datetime', inplace=True)` — reorder
rows by the argsort of the int64 epoch keys. -/
def sortRows (df : DataFrame) : DataFrame :=
  { df with rows := (npArgsort (df.rows.map keyOf)).map (fun i => df.rows.getD i []) }

/-! ### The pipeline -/

/-- Names for the intermediate tables of `preprocess_data`. -/
def coercedOf (dfs : List DataFrame) : DataFrame := coerceDF (renamedOf dfs)

/-- The table after `dropna` (line 56). -/
def droppedOf (dfs : List DataFrame) : DataFrame := dropDF (coercedOf dfs)

/-- The table after the chronological sort (line 57). -/
def sortedOf (dfs : List DataFrame) : DataFrame := sortRows (droppedOf dfs)

/-- Embedding of `DataETL.preprocess_data` (lines 39-59) as a function of
the loaded tables.  `ok none`: no dataframes, preprocessing skipped
(`combined_df` untouched).  `error`: an uncaught exception escapes —
`KeyError` when no `datetime` column exists after the rename, and
`ValueError` when the rename produced a duplicated `datetime` label, since
`combined_df['datetime']` then yields a two-column DataFrame and
`pd.to_datetime` rejects it (no `year/month/day` columns to assemble). -/
def preprocess_data (dfs : List DataFrame) : Except String (Option DataFrame) :=
  match dfs with
  | [] => Except.ok none
  | _ :: _ =>
    let renamed := renamedOf dfs
    if "datetime" ∉ renamed.cols then Except.error "KeyError: datetime"
    else if 2 ≤ renamed.cols.count "datetime" then
      Except.error "ValueError: to assemble mappings requires [year, month, day]"
    else Except.ok (some (sortedOf dfs))

/-- The SQLite store at `db_path`: absent (no file), or a file holding named
tables. -/
inductive Store where
  | absent : Store
  | db : List (String × DataFrame) → Store
deriving DecidableEq, Repr

/-- Embedding of `to_sql(table_name, conn, if_exists='replace', index=False)`: any prior
table under that name is dropped and the new one written. -/
def writeReplace (ts : List (String × DataFrame)) (name : String) (df : DataFrame) :
    List (String × DataFrame) :=
  ts.filter (fun p => decide (p.1 ≠ name)) ++ [(name, df)]

/-- Lookup of a named table in the store. -/
def getTable (s : Store) (name : String) : Option DataFrame :=
  match s with
  | Store.absent => none
  | Store.db ts => (ts.find? (fun p => decide (p.1 = name))).map Prod.snd

/-- Embedding of `DataETL.create_database` (lines 61-73).  `combined` absent
or empty: return before any store is opened.  A write failure
(`writeFails`) raises inside the `try`, is caught and logged, and leaves
the store unchanged; on success `sqlite3.connect` opens/creates the store
and the table is written with replace semantics. -/
def create_database (combined : Option DataFrame) (tableName : String)
    (writeFails : Bool) (s : Store) : Store :=
  match combined with
  | none => s
  | some df =>
    if df.rows.isEmpty then s
    else if writeFails then s
    else
      match s with
      | Store.absent => Store.db (writeReplace [] tableName df)
      | Store.db ts => Store.db (writeReplace ts tableName df)

/-- A directory entry: file name, extension, and the outcome of the format
reader (`none`: the reader raises, caught per file). -/
structure DirFile where
  name : String
  suffix : String
  parsed : Option DataFrame
deriving DecidableEq, Repr

/-- The mutable state of a `DataETL` instance (the `directory` path is
passed where the code reads it). -/
structure ETL where
  dataframes : List (String × DataFrame)
  errors : List String
  combined_df : Option DataFrame
deriving DecidableEq, Repr

/-- Embedding of `DataETL.__init__`. -/
def ETL.init : ETL := { dataframes := [], errors := [], combined_df := none }

/-- Python's `str.lower()` on the file extension, written as a character
map so it evaluates by reduction. -/
def lowerStr (s : String) : String := String.mk (s.data.map Char.toLower)

/-- Embedding of `DataETL.load_files` (lines 22-37): for each directory
entry, dispatch on the lower-cased extension; append the parsed table to
`self.dataframes`, or the failure to `self.errors`; other extensions are
skipped.  Note the method never clears `self.dataframes`. -/
def load_files (dir : List DirFile) (etl : ETL) : ETL :=
  dir.foldl
    (fun st file =>
      if lowerStr file.suffix = ".csv" ∨ lowerStr file.suffix = ".parquet" ∨
          lowerStr file.suffix = ".pq" then
        match file.parsed with
        | some df => { st with dataframes := st.dataframes ++ [(file.name, df)] }
        | none => { st with errors := st.errors ++ [file.name] }
      else st)
    etl

/-- Embedding of `DataETL.run` (lines 75-80): load, preprocess (an uncaught
exception propagates), materialize, and return
`len(self.combined_df) if self.combined_df is not None else 0`.  When
preprocessing is skipped (`ok none`) the previous `combined_df` persists. -/
def run (dir : List DirFile) (etl : ETL) (tableName : String) (writeFails : Bool)
    (s : Store) : Except String (ETL × Nat × Store) :=
  let etl1 := load_files dir etl
  match preprocess_data (etl1.dataframes.map Prod.snd) with
  | Except.error e => Except.error e
  | Except.ok copt =>
    let combined := match copt with
      | some df => some df
      | none => etl1.combined_df
    let s1 := create_database combined tableName writeFails s
    Except.ok ({ etl1 with combined_df := combined },
      (match combined with
       | some df => df.rows.length
       | none => 0),
      s1)

/-- The (name, table) pairs one pass of `load_files` appends to
`self.dataframes`: the successfully parsed files with a recognized
extension, in directory order. -/
def loadedPairs (dir : List DirFile) : List (String × DataFrame) :=
  dir.filterMap (fun f =>
    if lowerStr f.suffix = ".csv" ∨ lowerStr f.suffix = ".parquet" ∨
        lowerStr f.suffix = ".pq" then
      f.parsed.map (fun df => (f.name, df))
    else none)

/-- The file names one pass of `load_files` appends to `self.errors`. -/
def loadErrs (dir : List DirFile) : List String :=
  dir.filterMap (fun f =>
    if lowerStr f.suffix = ".csv" ∨ lowerStr f.suffix = ".parquet" ∨
        lowerStr f.suffix = ".pq" then
      match f.parsed with
      | none => some f.name
      | some _ => none
    else none)

/-! ### Derived notions and concrete inputs used by the theorems -/

/-- The stable-sort order on index positions: strictly smaller key, or equal
key and earlier original position.  A sort whose output index list is
pairwise in this order is exactly a non-decreasing, tie-stable sort. -/
def lexKey (keys : List Int) (i j : Nat) : Prop :=
  keys.getD i 0 < keys.getD j 0 ∨ (keys.getD i 0 = keys.getD j 0 ∧ i < j)

/-- The `val` column of a preprocessing result, `[]` on skip or error. -/
def valsOf (e : Except String (Option DataFrame)) : List Cell :=
  match e with
  | Except.ok (some d) => d.rows.map (fun r => rowGet r "val")
  | _ => []

/-- The `a.csv` table of the spec's scenario: alternate `DATETIME` spelling,
one row at 2024-01-01T10:00:00Z (epoch key 600, explicit offset 0). -/
def dfA : DataFrame :=
  { cols := ["DATETIME", "val"],
    rows := [[("DATETIME", Cell.dtAware 600 0), ("val", Cell.int 1)]] }

/-- The `b.csv` table of the spec's scenario: canonical `datetime` column,
one naive row at 2024-01-01T09:00:00 (epoch key 540). -/
def dfB : DataFrame :=
  { cols := ["datetime", "val"],
    rows := [[("datetime", Cell.dtNaive 540), ("val", Cell.int 2)]] }

/-- A table with no timestamp column at all. -/
def dfNoDt : DataFrame := { cols := ["x"], rows := [[("x", Cell.int 0)]] }

/-- A three-row table with a tie on the timestamp key. -/
def dfTie : DataFrame :=
  { cols := ["datetime", "val"],
    rows := [[("datetime", Cell.dtNaive 5), ("val", Cell.int 1)],
             [("datetime", Cell.dtNaive 3), ("val", Cell.int 2)],
             [("datetime", Cell.dtNaive 5), ("val", Cell.int 3)]] }

/-- A table with one unparseable and one valid timestamp row. -/
def dfMixedBad : DataFrame :=
  { cols := ["datetime", "val"],
    rows := [[("datetime", Cell.bad), ("val", Cell.int 7)],
             [("datetime", Cell.dtNaive 9), ("val", Cell.int 8)]] }

/-- Seventeen rows sharing one timestamp, `val` 0..16: large enough that the
quicksort driver partitions instead of running the (stable) insertion
sort. -/
def c1df : DataFrame :=
  { cols := ["datetime", "val"],
    rows := (List.range 17).map
      (fun i => [("datetime", Cell.dtNaive 100), ("val", Cell.int (Int.ofNat i))]) }

/-- Directory entry wrapping `dfB`. -/
def fileB : DirFile := { name := "b.csv", suffix := ".csv", parsed := some dfB }

/-- Directory entry whose single row has an unparseable timestamp. -/
def fileBad : DirFile :=
  { name := "bad.csv", suffix := ".csv",
    parsed := some { cols := ["datetime", "val"],
                     rows := [[("datetime", Cell.bad), ("val", Cell.int 3)]] } }

/-- The normalized form of `dfB`. -/
def dfBnorm : DataFrame :=
  { cols := ["datetime", "val"],
    rows := [[("datetime", Cell.instant 540), ("val", Cell.int 2)]] }

/-- The normalized table of two accumulated copies of `dfB`. -/
def dfBnorm2 : DataFrame :=
  { cols := ["datetime", "val"],
    rows := [[("datetime", Cell.instant 540), ("val", Cell.int 2)],
             [("datetime", Cell.instant 540), ("val", Cell.int 2)]] }

/-- Result of the first `run` over `[fileB]` from a fresh instance. -/
def c3FirstOut : ETL × Nat × Store :=
  ({ dataframes := [("b.csv", dfB)], errors := [], combined_df := some dfBnorm },
   1, Store.db [("events", dfBnorm)])

/-- Result of the second `run` on the same instance: the loaded list has
accumulated two copies of `b.csv`. -/
def c3SecondOut : ETL × Nat × Store :=
  ({ dataframes := [("b.csv", dfB), ("b.csv", dfB)], errors := [],
     combined_df := some dfBnorm2 },
   2, Store.db [("events", dfBnorm2)])

open scoped List

/-! ### Helper lemmas: cells and rows -/

theorem rowGet_coerceRow (r : Row) :
    rowGet (coerceRow r) "datetime" = coerceCell (rowGet r "datetime") := by
  induction r with
  | nil => rfl
  | cons kv rest ih =>
    obtain ⟨k, v⟩ := kv
    have hrw : coerceRow ((k, v) :: rest) =
        (if k = "datetime" then (k, coerceCell v) else (k, v)) :: coerceRow rest := rfl
    rw [hrw]
    by_cases hk : k = "datetime"
    · rw [if_pos hk]
      have h1 : rowGet ((k, coerceCell v) :: coerceRow rest) "datetime" = coerceCell v := by
        simp [rowGet, hk]
      have h2 : rowGet ((k, v) :: rest) "datetime" = v := by simp [rowGet, hk]
      rw [h1, h2]
    · rw [if_neg hk]
      have h1 : rowGet ((k, v) :: coerceRow rest) "datetime" =
          rowGet (coerceRow rest) "datetime" := by simp [rowGet, hk]
      have h2 : rowGet ((k, v) :: rest) "datetime" = rowGet rest "datetime" := by
        simp [rowGet, hk]
      rw [h1, h2, ih]

theorem coerceCell_eq_null_iff (c : Cell) :
    coerceCell c = Cell.null ↔ toInstant c = none := by
  cases c <;> simp [coerceCell, toInstant]

theorem coerceCell_cases (c : Cell) :
    coerceCell c = Cell.null ∨ ∃ t, coerceCell c = Cell.instant t := by
  cases c <;> simp [coerceCell, toInstant]

theorem rowGet_eq_null_of_not_mem_keys {r : Row} {c : String}
    (h : c ∉ r.map Prod.fst) : rowGet r c = Cell.null := by
  induction r with
  | nil => rfl
  | cons kv rest ih =>
    simp only [List.map_cons, List.mem_cons] at h
    push_neg at h
    have hk : ¬kv.1 = c := fun he => h.1 he.symm
    simp [rowGet, hk, ih h.2]

/-! ### Helper lemmas: swaps are permutations -/

theorem set_front_perm {α : Type} (d : α) :
    ∀ (t : List α) (m : Nat) (a : α), m < t.length →
      (t.getD m d) :: t.set m a ~ a :: t := by
  intro t
  induction t with
  | nil => intro m a h; simp at h
  | cons b t' ih =>
    intro m a _h
    cases m with
    | zero => simpa using List.Perm.swap a b t'
    | succ k =>
      have hk : k < t'.length := by simpa using _h
      calc (t'.getD k d) :: (b :: t').set (k + 1) a
          = (t'.getD k d) :: b :: t'.set k a := by simp
        _ ~ b :: (t'.getD k d) :: t'.set k a := List.Perm.swap _ _ _
        _ ~ b :: a :: t' := List.Perm.cons b (ih k a hk)
        _ ~ a :: b :: t' := List.Perm.swap _ _ _

theorem set_set_swap_perm {α : Type} (d : α) :
    ∀ (l : List α) (i j : Nat), i < l.length → j < l.length →
      (l.set i (l.getD j d)).set j (l.getD i d) ~ l := by
  intro l
  induction l with
  | nil => intro i j h; simp at h
  | cons a t ih =>
    intro i j hi hj
    cases i with
    | zero =>
      cases j with
      | zero => simp
      | succ m =>
        have hm : m < t.length := by simpa using hj
        have : ((a :: t).set 0 ((a :: t).getD (m + 1) d)).set (m + 1) ((a :: t).getD 0 d)
            = (t.getD m d) :: t.set m a := by simp
        rw [this]
        exact set_front_perm d t m a hm
    | succ n =>
      cases j with
      | zero =>
        have hn : n < t.length := by simpa using hi
        have : ((a :: t).set (n + 1) ((a :: t).getD 0 d)).set 0 ((a :: t).getD (n + 1) d)
            = (t.getD n d) :: t.set n a := by simp
        rw [this]
        exact set_front_perm d t n a hn
      | succ m =>
        have hn : n < t.length := by simpa using hi
        have hm : m < t.length := by simpa using hj
        have : ((a :: t).set (n + 1) ((a :: t).getD (m + 1) d)).set (m + 1) ((a :: t).getD (n + 1) d)
            = a :: ((t.set n (t.getD m d)).set m (t.getD n d)) := by simp
        rw [this]
        exact List.Perm.cons a (ih n m hn hm)

theorem aswap_perm (l : List Nat) (i j : Nat) : aswap l i j ~ l := by
  unfold aswap
  split
  · next h => exact set_set_swap_perm 0 l i j h.1 h.2
  · exact List.Perm.refl l

/-! ### Helper lemmas: the stable insertion sort -/

theorem insertStable_perm (keys : List Int) (x : Nat) (l : List Nat) :
    insertStable keys x l ~ x :: l := by
  induction l with
  | nil => exact List.Perm.refl _
  | cons y ys ih =>
    unfold insertStable
    split
    · exact List.Perm.refl _
    · calc y :: insertStable keys x ys
          ~ y :: x :: ys := List.Perm.cons y ih
        _ ~ x :: y :: ys := List.Perm.swap x y ys

theorem mem_insertStable {keys : List Int} {x a : Nat} {l : List Nat} :
    a ∈ insertStable keys x l ↔ a = x ∨ a ∈ l := by
  rw [(insertStable_perm keys x l).mem_iff]
  simp

theorem foldl_insertStable_perm (keys : List Int) :
    ∀ (l acc : List Nat),
      (l.foldl (fun a x => insertStable keys x a) acc) ~ acc ++ l := by
  intro l
  induction l with
  | nil => intro acc; simp
  | cons x t ih =>
    intro acc
    calc (x :: t).foldl (fun a x => insertStable keys x a) acc
        = t.foldl (fun a x => insertStable keys x a) (insertStable keys x acc) := rfl
      _ ~ insertStable keys x acc ++ t := ih _
      _ ~ (x :: acc) ++ t := (insertStable_perm keys x acc).append_right t
      _ = x :: (acc ++ t) := rfl
      _ ~ acc ++ x :: t := List.perm_middle.symm

theorem stableSortIdx_perm (keys : List Int) (l : List Nat) :
    stableSortIdx keys l ~ l := by
  simpa using foldl_insertStable_perm keys l []

theorem lexKey_le {keys : List Int} {i j : Nat} (h : lexKey keys i j) :
    keys.getD i 0 ≤ keys.getD j 0 := by
  rcases h with h | ⟨h, _⟩
  · exact le_of_lt h
  · exact le_of_eq h

theorem insertStable_pairwise_lex {keys : List Int} {x : Nat} :
    ∀ {acc : List Nat}, acc.Pairwise (lexKey keys) → (∀ a ∈ acc, a < x) →
      (insertStable keys x acc).Pairwise (lexKey keys) := by
  intro acc
  induction acc with
  | nil => intro _ _; simp [insertStable]
  | cons y ys ih =>
    intro hp hlt
    rw [List.pairwise_cons] at hp
    unfold insertStable
    split
    · next hxy =>
      refine List.pairwise_cons.2 ⟨?_, List.pairwise_cons.2 ⟨hp.1, hp.2⟩⟩
      intro z hz
      rcases List.mem_cons.1 hz with rfl | hz
      · exact Or.inl hxy
      · exact Or.inl (lt_of_lt_of_le hxy (lexKey_le (hp.1 z hz)))
    · next hxy =>
      refine List.pairwise_cons.2 ⟨?_, ih hp.2 (fun a ha => hlt a (List.mem_cons_of_mem y ha))⟩
      intro z hz
      rcases mem_insertStable.1 hz with rfl | hz
      · rcases lt_or_eq_of_le (le_of_not_lt hxy) with hlt' | heq
        · exact Or.inl hlt'
        · exact Or.inr ⟨heq, hlt y (List.mem_cons_self y ys)⟩
      · exact hp.1 z hz

theorem foldl_insertStable_pairwise_lex (keys : List Int) :
    ∀ (l acc : List Nat), acc.Pairwise (lexKey keys) →
      (∀ a ∈ acc, ∀ b ∈ l, a < b) → l.Pairwise (· < ·) →
      (l.foldl (fun a x => insertStable keys x a) acc).Pairwise (lexKey keys) := by
  intro l
  induction l with
  | nil => intro acc hacc _ _; exact hacc
  | cons x t ih =>
    intro acc hacc hcross hl
    rw [List.pairwise_cons] at hl
    refine ih (insertStable keys x acc) ?_ ?_ hl.2
    · exact insertStable_pairwise_lex hacc
        (fun a ha => hcross a ha x (List.mem_cons_self x t))
    · intro a ha b hb
      rcases mem_insertStable.1 ha with rfl | ha
      · exact hl.1 b hb
      · exact hcross a ha b (List.mem_cons_of_mem x hb)

theorem stableSortIdx_pairwise_lex (keys : List Int) {l : List Nat}
    (hl : l.Pairwise (· < ·)) :
    (stableSortIdx keys l).Pairwise (lexKey keys) := by
  exact foldl_insertStable_pairwise_lex keys l [] (by simp) (by simp) hl

/-! ### Helper lemmas: every introsort step permutes the index list -/

theorem sliceInsertion_perm (keys : List Int) (l : List Nat) (pl pr : Nat) :
    sliceInsertion keys l pl pr ~ l := by
  unfold sliceInsertion
  calc l.take pl ++ stableSortIdx keys ((l.drop pl).take (pr + 1 - pl)) ++
        (l.drop pl).drop (pr + 1 - pl)
      ~ l.take pl ++ ((l.drop pl).take (pr + 1 - pl) ++ (l.drop pl).drop (pr + 1 - pl)) := by
        rw [List.append_assoc]
        exact List.Perm.append_left _ ((stableSortIdx_perm _ _).append_right _)
    _ = l.take pl ++ l.drop pl := by rw [List.take_append_drop]
    _ = l := List.take_append_drop pl l

theorem ite_aswap_perm (c : Prop) [Decidable c] (l : List Nat) (i j : Nat) :
    (if c then aswap l i j else l) ~ l := by
  split
  · exact aswap_perm _ _ _
  · exact List.Perm.refl l

theorem partScan_perm (keys : List Int) (vp : Int) :
    ∀ (fuel : Nat) (l : List Nat) (pi pj : Nat), (partScan keys vp fuel l pi pj).1 ~ l := by
  intro fuel
  induction fuel with
  | zero => intro l pi pj; exact List.Perm.refl l
  | succ f ih =>
    intro l pi pj
    unfold partScan
    dsimp only
    split
    · exact List.Perm.refl l
    · exact (ih _ _ _).trans (aswap_perm _ _ _)

theorem partitionRange_perm (keys : List Int) (l : List Nat) (pl pr : Nat) :
    (partitionRange keys l pl pr).1 ~ l := by
  unfold partitionRange
  dsimp only
  refine (aswap_perm _ _ _).trans ?_
  refine (partScan_perm _ _ _ _ _ _).trans ?_
  refine (aswap_perm _ _ _).trans ?_
  refine (ite_aswap_perm _ _ _ _).trans ?_
  refine (ite_aswap_perm _ _ _ _).trans ?_
  exact ite_aswap_perm _ _ _ _

theorem siftLoop_perm (keys : List Int) (pl nh : Nat) :
    ∀ (fuel : Nat) (l : List Nat) (i : Nat), siftLoop keys pl nh fuel l i ~ l := by
  intro fuel
  induction fuel with
  | zero => intro l i; exact List.Perm.refl l
  | succ f ih =>
    intro l i
    unfold siftLoop
    dsimp only
    split
    · exact List.Perm.refl l
    · split
      · split
        · exact (ih _ _).trans (aswap_perm _ _ _)
        · exact List.Perm.refl l
      · split
        · exact (ih _ _).trans (aswap_perm _ _ _)
        · exact List.Perm.refl l

theorem heapBuild_perm (keys : List Int) (pl nh : Nat) :
    ∀ (st : Nat) (l : List Nat), heapBuild keys pl nh st l ~ l := by
  intro st
  induction st with
  | zero => intro l; exact List.Perm.refl l
  | succ k ih =>
    intro l
    exact (ih _).trans (siftLoop_perm _ _ _ _ _ _)

theorem heapExtract_perm (keys : List Int) (pl : Nat) :
    ∀ (n : Nat) (l : List Nat), heapExtract keys pl n l ~ l := by
  intro n
  induction n with
  | zero => intro l; exact List.Perm.refl l
  | succ m ih =>
    intro l
    match m with
    | 0 => exact List.Perm.refl l
    | k + 1 =>
      show heapExtract keys pl (k + 2) l ~ l
      unfold heapExtract
      exact (ih _).trans ((siftLoop_perm _ _ _ _ _ _).trans (aswap_perm _ _ _))

theorem heapRange_perm (keys : List Int) (l : List Nat) (pl pr : Nat) :
    heapRange keys l pl pr ~ l := by
  unfold heapRange
  exact (heapExtract_perm _ _ _ _).trans (heapBuild_perm _ _ _ _ _)

theorem qsLoop_perm (keys : List Int) :
    ∀ (fuel : Nat) (l : List Nat) (pl pr : Nat) (depth : Int) (stack : List (Nat × Nat)),
      qsLoop keys fuel l pl pr depth stack ~ l := by
  intro fuel
  induction fuel with
  | zero => intro l _ _ _ _; exact List.Perm.refl l
  | succ f ih =>
    intro l pl pr depth stack
    unfold qsLoop
    dsimp only
    split
    · split
      · split
        · exact heapRange_perm _ _ _ _
        · exact (ih _ _ _ _ _).trans (heapRange_perm _ _ _ _)
      · split
        · exact (ih _ _ _ _ _).trans (partitionRange_perm _ _ _ _)
        · exact (ih _ _ _ _ _).trans (partitionRange_perm _ _ _ _)
    · split
      · exact sliceInsertion_perm _ _ _ _
      · exact (ih _ _ _ _ _).trans (sliceInsertion_perm _ _ _ _)

theorem npArgsort_perm (keys : List Int) :
    npArgsort keys ~ List.range keys.length := by
  unfold npArgsort
  dsimp only
  split
  · exact stableSortIdx_perm _ _
  · exact qsLoop_perm _ _ _ _ _ _ _

theorem npArgsort_length (keys : List Int) :
    (npArgsort keys).length = keys.length := by
  rw [(npArgsort_perm keys).length_eq, List.length_range]

theorem npArgsort_mem {keys : List Int} {i : Nat} (h : i ∈ npArgsort keys) :
    i < keys.length := by
  have := (npArgsort_perm keys).mem_iff.1 h
  simpa using this

/-! ### Helper lemmas: `sortRows` -/

theorem sortRows_length (df : DataFrame) :
    (sortRows df).rows.length = df.rows.length := by
  simp [sortRows, npArgsort_length]

theorem sortRows_mem {df : DataFrame} {r : Row} (h : r ∈ (sortRows df).rows) :
    r ∈ df.rows := by
  simp only [sortRows, List.mem_map] at h
  obtain ⟨i, hi, rfl⟩ := h
  have hlt : i < df.rows.length := by
    have := npArgsort_mem hi
    simpa using this
  rw [List.getD_eq_getElem _ _ hlt]
  exact List.getElem_mem hlt

/-! ### Helper lemmas: merge, rename, and the pipeline stages -/

theorem mem_foldl_unionStep (c : String) :
    ∀ (dfs : List DataFrame) (acc : List String),
      c ∈ dfs.foldl (fun acc df => acc ++ df.cols.filter (fun x => decide (x ∉ acc))) acc ↔
        c ∈ acc ∨ ∃ df ∈ dfs, c ∈ df.cols := by
  intro dfs
  induction dfs with
  | nil => intro acc; simp
  | cons d t ih =>
    intro acc
    rw [List.foldl_cons, ih]
    simp only [List.mem_append, List.mem_filter, List.mem_cons, decide_eq_true_eq]
    constructor
    · rintro (((h | ⟨h1, _⟩) | ⟨df, hdf, hc⟩))
      · exact Or.inl h
      · exact Or.inr ⟨d, Or.inl rfl, h1⟩
      · exact Or.inr ⟨df, Or.inr hdf, hc⟩
    · rintro (h | ⟨df, (rfl | hdf), hc⟩)
      · exact Or.inl (Or.inl h)
      · by_cases ha : c ∈ acc
        · exact Or.inl (Or.inl ha)
        · exact Or.inl (Or.inr ⟨hc, ha⟩)
      · exact Or.inr ⟨df, hdf, hc⟩

theorem mem_unionCols {c : String} {dfs : List DataFrame} :
    c ∈ unionCols dfs ↔ ∃ df ∈ dfs, c ∈ df.cols := by
  rw [unionCols, mem_foldl_unionStep]
  simp

theorem foldl_unionStep_fixed :
    ∀ (dfs : List DataFrame) (acc : List String),
      (∀ df ∈ dfs, ∀ c ∈ df.cols, c ∈ acc) →
      dfs.foldl (fun acc df => acc ++ df.cols.filter (fun x => decide (x ∉ acc))) acc = acc := by
  intro dfs
  induction dfs with
  | nil => intro acc _; rfl
  | cons d t ih =>
    intro acc h
    rw [List.foldl_cons]
    have hf : d.cols.filter (fun x => decide (x ∉ acc)) = [] := by
      rw [List.filter_eq_nil_iff]
      intro a ha
      simp [h d (List.mem_cons_self d t) a ha]
    rw [hf, List.append_nil]
    exact ih acc (fun df hdf => h df (List.mem_cons_of_mem d hdf))

theorem unionCols_append_self (dfs : List DataFrame) :
    unionCols (dfs ++ dfs) = unionCols dfs := by
  rw [unionCols, List.foldl_append]
  exact foldl_unionStep_fixed dfs (unionCols dfs)
    (fun df hdf c hc => mem_unionCols.2 ⟨df, hdf, hc⟩)

theorem concat_rows_append_self (dfs : List DataFrame) :
    (concatDFs (dfs ++ dfs)).rows = (concatDFs dfs).rows ++ (concatDFs dfs).rows := by
  simp [concatDFs]

theorem renamedOf_append_self (dfs : List DataFrame) :
    (renamedOf (dfs ++ dfs)).cols = (renamedOf dfs).cols ∧
    (renamedOf (dfs ++ dfs)).rows = (renamedOf dfs).rows ++ (renamedOf dfs).rows := by
  unfold renamedOf
  dsimp only
  have hcols : (concatDFs (dfs ++ dfs)).cols = (concatDFs dfs).cols := by
    simp [concatDFs, unionCols_append_self]
  have hrows := concat_rows_append_self dfs
  by_cases hmem : "DATETIME" ∈ (concatDFs dfs).cols
  · rw [if_pos hmem, if_pos (hcols ▸ hmem)]
    constructor
    · simp [renameDF, hcols]
    · simp [renameDF, hrows]
  · rw [if_neg hmem, if_neg (fun hc => hmem (hcols ▸ hc))]
    exact ⟨hcols, hrows⟩

theorem preprocess_ok_some_inv {dfs : List DataFrame} {out : DataFrame}
    (h : preprocess_data dfs = Except.ok (some out)) :
    out = sortedOf dfs ∧ dfs ≠ [] ∧ "datetime" ∈ (renamedOf dfs).cols ∧
      (renamedOf dfs).cols.count "datetime" < 2 := by
  match dfs with
  | [] => simp [preprocess_data] at h
  | d :: t =>
    rw [preprocess_data] at h
    split at h
    · exact absurd h (by simp)
    · split at h
      · exact absurd h (by simp)
      · next h1 h2 =>
        refine ⟨?_, by simp, not_not.1 h1, lt_of_not_le h2⟩
        have := Except.ok.inj h
        exact (Option.some.inj this).symm

theorem preprocess_ok_none_inv {dfs : List DataFrame}
    (h : preprocess_data dfs = Except.ok none) : dfs = [] := by
  match dfs with
  | [] => rfl
  | d :: t =>
    rw [preprocess_data] at h
    split at h
    · exact absurd h (by simp)
    · split at h
      · exact absurd h (by simp)
      · exact absurd h (by simp)

theorem load_files_spec (dir : List DirFile) (etl : ETL) :
    load_files dir etl =
      { dataframes := etl.dataframes ++ loadedPairs dir,
        errors := etl.errors ++ loadErrs dir,
        combined_df := etl.combined_df } := by
  induction dir generalizing etl with
  | nil => simp [load_files, loadedPairs, loadErrs]
  | cons f t ih =>
    rw [load_files, List.foldl_cons]
    rw [show ∀ e, t.foldl _ e = load_files t e from fun _ => rfl]
    by_cases hs : lowerStr f.suffix = ".csv" ∨ lowerStr f.suffix = ".parquet" ∨
        lowerStr f.suffix = ".pq"
    · cases hp : f.parsed with
      | some df =>
        rw [if_pos hs, ih]
        simp [loadedPairs, loadErrs, hs, hp]
      | none =>
        rw [if_pos hs, ih]
        simp [loadedPairs, loadErrs, hs, hp]
    · rw [if_neg hs, ih]
      simp [loadedPairs, loadErrs, hs]

theorem find?_writeReplace (ts : List (String × DataFrame)) (n : String) (df : DataFrame) :
    (writeReplace ts n df).find? (fun p => decide (p.1 = n)) = some (n, df) := by
  unfold writeReplace
  induction ts with
  | nil => simp
  | cons p rest ih =>
    by_cases hp : p.1 = n
    · have hf : (p :: rest).filter (fun q => decide (q.1 ≠ n)) =
          rest.filter (fun q => decide (q.1 ≠ n)) := by simp [List.filter_cons, hp]
      rw [hf]
      exact ih
    · have hf : (p :: rest).filter (fun q => decide (q.1 ≠ n)) =
          p :: rest.filter (fun q => decide (q.1 ≠ n)) := by simp [List.filter_cons, hp]
      rw [hf, List.cons_append, List.find?_cons_of_neg _ (by simp [hp])]
      exact ih

theorem getTable_writeReplace (ts : List (String × DataFrame)) (n : String) (df : DataFrame) :
    getTable (Store.db (writeReplace ts n df)) n = some df := by
  simp [getTable, find?_writeReplace]

/-! ### Helper lemmas: unfolding `run` -/

theorem run_eq_error {dir : List DirFile} {etl : ETL} {tname : String} {wf : Bool}
    {s : Store} {e : String}
    (hp : preprocess_data ((etl.dataframes ++ loadedPairs dir).map Prod.snd) =
      Except.error e) :
    run dir etl tname wf s = Except.error e := by
  unfold run
  rw [load_files_spec]
  dsimp only
  rw [hp]

theorem run_eq_ok_some {dir : List DirFile} {etl : ETL} {tname : String} {wf : Bool}
    {s : Store} {df : DataFrame}
    (hp : preprocess_data ((etl.dataframes ++ loadedPairs dir).map Prod.snd) =
      Except.ok (some df)) :
    run dir etl tname wf s =
      Except.ok
        ({ dataframes := etl.dataframes ++ loadedPairs dir,
           errors := etl.errors ++ loadErrs dir, combined_df := some df },
         df.rows.length, create_database (some df) tname wf s) := by
  unfold run
  rw [load_files_spec]
  dsimp only
  rw [hp]

theorem run_eq_ok_none {dir : List DirFile} {etl : ETL} {tname : String} {wf : Bool}
    {s : Store}
    (hp : preprocess_data ((etl.dataframes ++ loadedPairs dir).map Prod.snd) =
      Except.ok none) :
    run dir etl tname wf s =
      Except.ok
        ({ dataframes := etl.dataframes ++ loadedPairs dir,
           errors := etl.errors ++ loadErrs dir, combined_df := etl.combined_df },
         (match etl.combined_df with
          | some df => df.rows.length
          | none => 0),
         create_database etl.combined_df tname wf s) := by
  unfold run
  rw [load_files_spec]
  dsimp only
  rw [hp]

/-! ### Claim theorems -/

/-- C9: for every non-empty sequence of loaded tables in which no table has
a column named `datetime` or `DATETIME`, `preprocess_data` fails fatally
(the `KeyError` raised by `combined_df['datetime']` propagates) rather than
silently producing a table without a timestamp column. -/
theorem preprocess_missing_datetime_errors {dfs : List DataFrame} (hne : dfs ≠ [])
    (h : ∀ df ∈ dfs, "datetime" ∉ df.cols ∧ "DATETIME" ∉ df.cols) :
    ∃ e, preprocess_data dfs = Except.error e := by
  have hDT : "DATETIME" ∉ (concatDFs dfs).cols := by
    intro hc
    obtain ⟨df, hdf, hcc⟩ := mem_unionCols.1 hc
    exact (h df hdf).2 hcc
  have hdt : "datetime" ∉ (renamedOf dfs).cols := by
    unfold renamedOf
    dsimp only
    rw [if_neg hDT]
    intro hc
    obtain ⟨df, hdf, hcc⟩ := mem_unionCols.1 hc
    exact (h df hdf).1 hcc
  match dfs, hne with
  | d :: t, _ =>
    exact ⟨"KeyError: datetime", by rw [preprocess_data, if_pos hdt]⟩

/-- C9 witness: a single loaded table with only an `x` column makes
`preprocess_data` raise. -/
theorem preprocess_missing_datetime_errors_witness :
    ([dfNoDt] ≠ ([] : List DataFrame) ∧
      ∀ df ∈ [dfNoDt], "datetime" ∉ df.cols ∧ "DATETIME" ∉ df.cols) ∧
    ∃ e, preprocess_data [dfNoDt] = Except.error e :=
  ⟨⟨by decide, by decide⟩,
    preprocess_missing_datetime_errors (by decide) (by decide)⟩

/-- C5: whenever `preprocess_data` returns a table, every row of it carries
a timezone-aware UTC instant in its `datetime` column — no null and no
unparseable value survives the coercion, drop, and sort. -/
theorem preprocess_datetime_totality {dfs : List DataFrame} {out : DataFrame}
    (h : preprocess_data dfs = Except.ok (some out)) :
    ∀ r ∈ out.rows, ∃ t, rowGet r "datetime" = Cell.instant t := by
  obtain ⟨rfl, -, -, -⟩ := preprocess_ok_some_inv h
  intro r hr
  have hr' : r ∈ (droppedOf dfs).rows := sortRows_mem hr
  rw [droppedOf, dropDF] at hr'
  dsimp only at hr'
  obtain ⟨hin, hne⟩ := List.mem_filter.1 hr'
  rw [coercedOf, coerceDF] at hin
  dsimp only at hin
  obtain ⟨r0, _, rfl⟩ := List.mem_map.1 hin
  rcases coerceCell_cases (rowGet r0 "datetime") with hnull | ⟨t, ht⟩
  · rw [rowGet_coerceRow, hnull] at hne
    simp at hne
  · exact ⟨t, rowGet_coerceRow r0 ▸ ht⟩

/-- C5 witness: the three-row table normalizes and every output row holds a
UTC instant. -/
theorem preprocess_datetime_totality_witness :
    preprocess_data [dfTie] = Except.ok (some (sortedOf [dfTie])) ∧
    ∀ r ∈ (sortedOf [dfTie]).rows, ∃ t, rowGet r "datetime" = Cell.instant t :=
  ⟨rfl, @preprocess_datetime_totality [dfTie] (sortedOf [dfTie]) rfl⟩

/-- C7: the timestamp coercion of line 55 converts every parseable
`datetime` value to UTC — a naive value is interpreted as UTC directly
(same epoch value, no local-timezone inference), and a value carrying an
explicit offset is converted to UTC by subtracting the offset. -/
theorem coerce_utc_semantics (df : DataFrame) (i : Nat) (hi : i < df.rows.length) :
    (∀ t, rowGet (df.rows.getD i []) "datetime" = Cell.dtNaive t →
        rowGet ((coerceDF df).rows.getD i []) "datetime" = Cell.instant t) ∧
    (∀ t off, rowGet (df.rows.getD i []) "datetime" = Cell.dtAware t off →
        rowGet ((coerceDF df).rows.getD i []) "datetime" = Cell.instant (t - off)) := by
  have hco : (coerceDF df).rows.getD i [] = coerceRow (df.rows.getD i []) := by
    rw [coerceDF]
    dsimp only
    rw [List.getD_eq_getElem _ _ (by simpa using hi), List.getD_eq_getElem _ _ hi,
      List.getElem_map]
  constructor
  · intro t ht
    rw [hco, rowGet_coerceRow, ht]
    rfl
  · intro t off ht
    rw [hco, rowGet_coerceRow, ht]
    rfl

/-- C7 witness: the naive row of `dfB` keeps its epoch value 540 as a UTC
instant. -/
theorem coerce_utc_semantics_witness :
    0 < dfB.rows.length ∧
    ((∀ t, rowGet (dfB.rows.getD 0 []) "datetime" = Cell.dtNaive t →
        rowGet ((coerceDF dfB).rows.getD 0 []) "datetime" = Cell.instant t) ∧
     (∀ t off, rowGet (dfB.rows.getD 0 []) "datetime" = Cell.dtAware t off →
        rowGet ((coerceDF dfB).rows.getD 0 []) "datetime" = Cell.instant (t - off))) :=
  ⟨by decide, coerce_utc_semantics dfB 0 (by decide)⟩

/-- C6: the merge step is a stable concatenation: row count is the sum of
the inputs' row counts, the column set is the union of the inputs' column
sets, a row from a table lacking a column holds null there, and the rows
are exactly the inputs' rows in input order. -/
theorem concat_merge_complete {dfs : List DataFrame} (hwf : ∀ df ∈ dfs, df.WF) :
    (concatDFs dfs).rows.length = (dfs.map (fun df => df.rows.length)).sum ∧
    (∀ c, c ∈ (concatDFs dfs).cols ↔ ∃ df ∈ dfs, c ∈ df.cols) ∧
    (∀ df ∈ dfs, ∀ r ∈ df.rows, ∀ c, c ∉ df.cols → rowGet r c = Cell.null) ∧
    (concatDFs dfs).rows = (dfs.map DataFrame.rows).flatten := by
  refine ⟨?_, ?_, ?_, rfl⟩
  · simp only [concatDFs, List.length_flatten, List.map_map]
    rfl
  · intro c
    exact mem_unionCols
  · intro df hdf r hr c hc
    have hkeys := (hwf df hdf).2 r hr
    exact rowGet_eq_null_of_not_mem_keys (by rw [hkeys]; exact hc)

/-- C6 witness: the scenario tables `dfA` and `dfB` are well-formed, so the
merge properties hold for them. -/
theorem concat_merge_complete_witness :
    (∀ df ∈ [dfA, dfB], df.WF) ∧
    ((concatDFs [dfA, dfB]).rows.length =
        (([dfA, dfB]).map (fun df => df.rows.length)).sum ∧
     (∀ c, c ∈ (concatDFs [dfA, dfB]).cols ↔ ∃ df ∈ [dfA, dfB], c ∈ df.cols) ∧
     (∀ df ∈ [dfA, dfB], ∀ r ∈ df.rows, ∀ c, c ∉ df.cols → rowGet r c = Cell.null) ∧
     (concatDFs [dfA, dfB]).rows = (([dfA, dfB]).map DataFrame.rows).flatten) :=
  ⟨by decide, @concat_merge_complete [dfA, dfB] (by decide)⟩

/-- C8: the number of rows `preprocess_data` removes equals exactly the
number of merged (post-rename) rows whose original `datetime` value is null
or unparseable; the coercion turns those into the `NaT` sentinel instead of
raising, and the drop removes exactly them (the sort preserves the count). -/
theorem preprocess_drop_count_exact {dfs : List DataFrame} {out : DataFrame}
    (h : preprocess_data dfs = Except.ok (some out)) :
    out.rows.length +
      (renamedOf dfs).rows.countP
        (fun r => decide (toInstant (rowGet r "datetime") = none)) =
      (renamedOf dfs).rows.length := by
  obtain ⟨rfl, -, -, -⟩ := preprocess_ok_some_inv h
  have h1 : (sortedOf dfs).rows.length = (droppedOf dfs).rows.length :=
    sortRows_length _
  have h2 : (droppedOf dfs).rows.length =
      (renamedOf dfs).rows.countP
        (fun r => !(decide (toInstant (rowGet r "datetime") = none))) := by
    show ((coercedOf dfs).rows.filter _).length = _
    rw [← List.countP_eq_length_filter]
    show ((renamedOf dfs).rows.map coerceRow).countP _ = _
    rw [List.countP_map]
    refine List.countP_congr ?_
    intro r _
    show (decide (rowGet (coerceRow r) "datetime" ≠ Cell.null)) = true ↔
      (!(decide (toInstant (rowGet r "datetime") = none))) = true
    rw [rowGet_coerceRow]
    by_cases hc : toInstant (rowGet r "datetime") = none
    · simp [hc, (coerceCell_eq_null_iff _).2 hc]
    · have hnn : coerceCell (rowGet r "datetime") ≠ Cell.null :=
        fun hn => hc ((coerceCell_eq_null_iff _).1 hn)
      simp [hc, hnn]
  rw [h1, h2]
  have := @List.length_eq_countP_add_countP Row
    (fun r => !(decide (toInstant (rowGet r "datetime") = none)))
    (renamedOf dfs).rows
  rw [this]
  congr 1
  refine List.countP_congr ?_
  intro r _
  simp

/-- C8 witness: of the two merged rows of `dfMixedBad` exactly one has an
unparseable timestamp, and exactly one row is dropped. -/
theorem preprocess_drop_count_exact_witness :
    preprocess_data [dfMixedBad] = Except.ok (some (sortedOf [dfMixedBad])) ∧
    (sortedOf [dfMixedBad]).rows.length +
        (renamedOf [dfMixedBad]).rows.countP
          (fun r => decide (toInstant (rowGet r "datetime") = none)) =
      (renamedOf [dfMixedBad]).rows.length :=
  ⟨rfl, @preprocess_drop_count_exact [dfMixedBad] (sortedOf [dfMixedBad]) rfl⟩

/-- C10: when the normalized table is absent (no files loaded, fresh
instance) or empty (every row dropped), `create_database` returns before
`sqlite3.connect` ever runs — no database file is created — and `run`
returns 0. -/
theorem run_empty_no_write (dir : List DirFile) (tname : String) (wFail : Bool)
    (h : preprocess_data ((loadedPairs dir).map Prod.snd) = Except.ok none ∨
         ∃ d, preprocess_data ((loadedPairs dir).map Prod.snd) = Except.ok (some d) ∧
           d.rows = []) :
    ∃ e, run dir ETL.init tname wFail Store.absent = Except.ok (e, 0, Store.absent) := by
  rcases h with h | ⟨d, hd, hrows⟩
  · exact ⟨_, @run_eq_ok_none dir ETL.init tname wFail Store.absent
      (by simpa [ETL.init] using h)⟩
  · have hr := @run_eq_ok_some dir ETL.init tname wFail Store.absent d
      (by simpa [ETL.init] using hd)
    have hcd : create_database (some d) tname wFail Store.absent = Store.absent := by
      simp [create_database, hrows]
    have hlen : d.rows.length = 0 := by simp [hrows]
    exact ⟨_, by rw [hr, hcd, hlen]⟩

/-- C10 witness: a directory holding one file whose single row has an
unparseable timestamp — the normalized table is empty, nothing is written,
and `run` reports 0. -/
theorem run_empty_no_write_witness :
    (∃ d, preprocess_data ((loadedPairs [fileBad]).map Prod.snd) = Except.ok (some d) ∧
      d.rows = []) ∧
    ∃ e, run [fileBad] ETL.init "events" false Store.absent = Except.ok (e, 0, Store.absent) :=
  ⟨⟨sortedOf ((loadedPairs [fileBad]).map Prod.snd), rfl, rfl⟩,
    run_empty_no_write [fileBad] "events" false
      (Or.inr ⟨sortedOf ((loadedPairs [fileBad]).map Prod.snd), rfl, rfl⟩)⟩

/-- C2 counterexample: on a directory whose single file holds one valid
row, making the database write fail (`writeFails = true`, the caught
`to_sql` exception) still lets `run` report row count 1 — neither 0 nor an
error-flagged result, so the write failure is invisible to the caller. -/
theorem run_write_failure_count_cex :
    (run [fileB] ETL.init "events" true Store.absent).map (fun x => x.2.1) =
      Except.ok 1 ∧
    (Except.ok 1 : Except String Nat) ≠ Except.ok 0 := by
  constructor
  · rfl
  · intro h
    simpa using Except.ok.inj h

/-- C2 (amended): a failed database write is caught and logged inside
`create_database`; `run` returns the same row count as on a successful
write, so the storage failure never surfaces in the returned value. -/
theorem run_count_independent_of_write_failure (dir : List DirFile) (etl : ETL)
    (tname : String) (s : Store) :
    (run dir etl tname true s).map (fun x => x.2.1) =
    (run dir etl tname false s).map (fun x => x.2.1) := by
  unfold run
  rw [load_files_spec]
  dsimp only
  cases preprocess_data ((etl.dataframes ++ loadedPairs dir).map Prod.snd) with
  | error e => rfl
  | ok copt =>
    cases copt with
    | none => rfl
    | some df => rfl

/-- C4: the spec's mixed-spelling scenario crashes instead of normalizing.
Concatenation happens before the rename, so `[dfA, dfB]` merges into a
table with both a `DATETIME` and a `datetime` column; the rename then
produces two `datetime` labels, `combined_df['datetime']` yields a
two-column DataFrame, and `pd.to_datetime` raises `ValueError` — the
pipeline never returns the expected two sorted rows. -/
theorem preprocess_mixed_datetime_columns_raises :
    preprocess_data [dfA, dfB] =
      Except.error "ValueError: to assemble mappings requires [year, month, day]" := by
  rfl

/-- C1 (amended): the chronological sort is non-decreasing and stable
whenever the surviving table has at most 16 rows — numpy then runs its
insertion sort, whose output index list is pairwise in `lexKey` order
(strictly smaller key, or equal key and smaller original position, i.e.
ties keep the merged order).  For larger tables the quicksort partitioning
applies instead and stability fails (see the 17-row counterexample). -/
theorem preprocess_sort_sorted_stable_small {dfs : List DataFrame} {out : DataFrame}
    (h : preprocess_data dfs = Except.ok (some out))
    (hsmall : (droppedOf dfs).rows.length ≤ 16) :
    out.rows = (npArgsort ((droppedOf dfs).rows.map keyOf)).map
        (fun i => (droppedOf dfs).rows.getD i []) ∧
    (npArgsort ((droppedOf dfs).rows.map keyOf)).Pairwise
      (lexKey ((droppedOf dfs).rows.map keyOf)) ∧
    (out.rows.map keyOf).Pairwise (· ≤ ·) := by
  obtain ⟨rfl, -, -, -⟩ := preprocess_ok_some_inv h
  have hlen : ((droppedOf dfs).rows.map keyOf).length ≤ 16 := by
    simpa using hsmall
  have hbranch : npArgsort ((droppedOf dfs).rows.map keyOf) =
      stableSortIdx ((droppedOf dfs).rows.map keyOf)
        (List.range ((droppedOf dfs).rows.map keyOf).length) := by
    unfold npArgsort
    dsimp only
    rw [if_pos hlen]
  have hlex : (npArgsort ((droppedOf dfs).rows.map keyOf)).Pairwise
      (lexKey ((droppedOf dfs).rows.map keyOf)) := by
    rw [hbranch]
    exact stableSortIdx_pairwise_lex _ (List.pairwise_lt_range _)
  refine ⟨rfl, hlex, ?_⟩
  have hkey : ∀ i, i < (droppedOf dfs).rows.length →
      ((droppedOf dfs).rows.map keyOf).getD i 0 =
        keyOf ((droppedOf dfs).rows.getD i []) := by
    intro i hi
    rw [List.getD_eq_getElem _ _ (by simpa using hi), List.getD_eq_getElem _ _ hi,
      List.getElem_map]
  have hmap : (sortedOf dfs).rows.map keyOf =
      (npArgsort ((droppedOf dfs).rows.map keyOf)).map
        (fun i => keyOf ((droppedOf dfs).rows.getD i [])) := by
    show ((npArgsort ((droppedOf dfs).rows.map keyOf)).map
      (fun i => (droppedOf dfs).rows.getD i [])).map keyOf = _
    rw [List.map_map]
    rfl
  rw [hmap, List.pairwise_map]
  refine List.Pairwise.imp_of_mem ?_ hlex
  intro a b ha hb hab
  have halt : a < (droppedOf dfs).rows.length := by simpa using npArgsort_mem ha
  have hblt : b < (droppedOf dfs).rows.length := by simpa using npArgsort_mem hb
  have hle := lexKey_le hab
  rw [hkey a halt, hkey b hblt] at hle
  exact hle

/-- C1 witness: the three-row table with a tie sorts non-decreasingly with
its index list in stable `lexKey` order. -/
theorem preprocess_sort_sorted_stable_small_witness :
    (preprocess_data [dfTie] = Except.ok (some (sortedOf [dfTie])) ∧
      (droppedOf [dfTie]).rows.length ≤ 16) ∧
    ((sortedOf [dfTie]).rows = (npArgsort ((droppedOf [dfTie]).rows.map keyOf)).map
        (fun i => (droppedOf [dfTie]).rows.getD i []) ∧
     (npArgsort ((droppedOf [dfTie]).rows.map keyOf)).Pairwise
        (lexKey ((droppedOf [dfTie]).rows.map keyOf)) ∧
     ((sortedOf [dfTie]).rows.map keyOf).Pairwise (· ≤ ·)) :=
  ⟨⟨rfl, by decide⟩,
    @preprocess_sort_sorted_stable_small [dfTie] (sortedOf [dfTie]) rfl (by decide)⟩

/-- C1 counterexample: seventeen rows share one timestamp with `val`
running 0..16, so a stable sort must reproduce the merged order
`0, 1, ..., 16` exactly; the pipeline's quicksort reorders them (it
produces `0, 14, 13, ...`), refuting the claim that equal-`datetime` rows
keep their pre-sort relative order. -/
theorem preprocess_sort_not_stable_17 :
    valsOf (preprocess_data [c1df]) ≠
      (List.range 17).map (fun i => Cell.int (Int.ofNat i)) := by
  decide

/-! ### Helper lemmas for rerunning the pipeline -/

theorem preprocess_data_cons_eq (dfs : List DataFrame) (hne : dfs ≠ []) :
    preprocess_data dfs =
      (if "datetime" ∉ (renamedOf dfs).cols then Except.error "KeyError: datetime"
       else if 2 ≤ (renamedOf dfs).cols.count "datetime" then
         Except.error "ValueError: to assemble mappings requires [year, month, day]"
       else Except.ok (some (sortedOf dfs))) := by
  match dfs, hne with
  | d :: t, _ => rw [preprocess_data]

theorem droppedOf_append_self (dfs : List DataFrame) :
    (droppedOf (dfs ++ dfs)).rows = (droppedOf dfs).rows ++ (droppedOf dfs).rows := by
  show ((coercedOf (dfs ++ dfs)).rows.filter _) = _
  have hco : (coercedOf (dfs ++ dfs)).rows =
      (coercedOf dfs).rows ++ (coercedOf dfs).rows := by
    show (renamedOf (dfs ++ dfs)).rows.map coerceRow = _
    rw [(renamedOf_append_self dfs).2, List.map_append]
    rfl
  rw [hco, List.filter_append]
  rfl

theorem preprocess_append_self {dfs : List DataFrame} (hne : dfs ≠ [])
    (hmem : "datetime" ∈ (renamedOf dfs).cols)
    (hcount : (renamedOf dfs).cols.count "datetime" < 2) :
    preprocess_data (dfs ++ dfs) = Except.ok (some (sortedOf (dfs ++ dfs))) := by
  have hcols := (renamedOf_append_self dfs).1
  rw [preprocess_data_cons_eq (dfs ++ dfs) (by simp [hne]), hcols,
    if_neg (not_not.2 hmem), if_neg (not_le.2 hcount)]

theorem create_database_writes (df : DataFrame) (tname : String) (s : Store)
    (hne : df.rows.isEmpty = false) :
    getTable (create_database (some df) tname false s) tname = some df := by
  cases s with
  | absent => simp [create_database, hne, getTable_writeReplace]
  | db ts => simp [create_database, hne, getTable_writeReplace]

/-- C3 (amended): `load_files` never clears `self.dataframes`, so a second
`run` on the same instance appends the directory's tables to those already
loaded and normalizes the doubled list: it reports twice the first run's
row count, and the replaced table holds each first-run row twice.  Only a
fresh instance reproduces the first run's table. -/
theorem run_twice_doubles_count (dir : List DirFile) (tname : String)
    {o1 o2 : ETL × Nat × Store}
    (h1 : run dir ETL.init tname false Store.absent = Except.ok o1)
    (h2 : run dir o1.1 tname false o1.2.2 = Except.ok o2) :
    o2.2.1 = 2 * o1.2.1 ∧
    (o1.2.1 ≠ 0 →
      ∃ df, getTable o2.2.2 tname = some df ∧ df.rows.length = 2 * o1.2.1) := by
  cases hp : preprocess_data ((loadedPairs dir).map Prod.snd) with
  | error e =>
    rw [@run_eq_error dir ETL.init tname false Store.absent e
      (by simpa [ETL.init] using hp)] at h1
    exact absurd h1 (by simp)
  | ok copt =>
    cases copt with
    | none =>
      have hL : loadedPairs dir = [] := by
        have := preprocess_ok_none_inv hp
        simpa using this
      rw [@run_eq_ok_none dir ETL.init tname false Store.absent
        (by simpa [ETL.init] using hp)] at h1
      have ho1 := Except.ok.inj h1
      subst ho1
      have hp2 : preprocess_data
          ((((ETL.init.dataframes ++ loadedPairs dir)) ++ loadedPairs dir).map Prod.snd) =
          Except.ok none := by
        simp [ETL.init, hL, preprocess_data]
      rw [@run_eq_ok_none dir _ tname false _ hp2] at h2
      have ho2 := Except.ok.inj h2
      subst ho2
      refine ⟨by simp [ETL.init], ?_⟩
      intro h0
      exact absurd rfl h0
    | some df1 =>
      obtain ⟨hdf1, hne, hmem, hcount⟩ := preprocess_ok_some_inv hp
      rw [@run_eq_ok_some dir ETL.init tname false Store.absent df1
        (by simpa [ETL.init] using hp)] at h1
      have ho1 := Except.ok.inj h1
      subst ho1
      have hmap2 : (((ETL.init.dataframes ++ loadedPairs dir)) ++ loadedPairs dir).map
            Prod.snd =
          (loadedPairs dir).map Prod.snd ++ (loadedPairs dir).map Prod.snd := by
        simp [ETL.init]
      have hp2 : preprocess_data
          ((((ETL.init.dataframes ++ loadedPairs dir)) ++ loadedPairs dir).map Prod.snd) =
          Except.ok (some (sortedOf
            ((loadedPairs dir).map Prod.snd ++ (loadedPairs dir).map Prod.snd))) := by
        rw [hmap2]
        exact preprocess_append_self hne hmem hcount
      rw [@run_eq_ok_some dir _ tname false _
        (sortedOf ((loadedPairs dir).map Prod.snd ++ (loadedPairs dir).map Prod.snd))
        hp2] at h2
      have ho2 := Except.ok.inj h2
      subst ho2
      have hc1 : df1.rows.length =
          (droppedOf ((loadedPairs dir).map Prod.snd)).rows.length := by
        rw [hdf1]
        exact sortRows_length _
      have hc2 : (sortedOf ((loadedPairs dir).map Prod.snd ++
            (loadedPairs dir).map Prod.snd)).rows.length = 2 * df1.rows.length := by
        rw [show (sortedOf ((loadedPairs dir).map Prod.snd ++
              (loadedPairs dir).map Prod.snd)).rows.length =
            (droppedOf ((loadedPairs dir).map Prod.snd ++
              (loadedPairs dir).map Prod.snd)).rows.length from sortRows_length _]
        rw [droppedOf_append_self, List.length_append, hc1]
        omega
      refine ⟨hc2, ?_⟩
      intro h0
      refine ⟨sortedOf ((loadedPairs dir).map Prod.snd ++ (loadedPairs dir).map Prod.snd),
        ?_, hc2⟩
      dsimp only
      apply create_database_writes
      have hlen0 : (sortedOf ((loadedPairs dir).map Prod.snd ++
          (loadedPairs dir).map Prod.snd)).rows.length ≠ 0 := by
        rw [hc2]
        have : df1.rows.length ≠ 0 := h0
        omega
      cases hrows : (sortedOf ((loadedPairs dir).map Prod.snd ++
          (loadedPairs dir).map Prod.snd)).rows with
      | nil => exact absurd (by rw [hrows]; rfl) hlen0
      | cons a l => rfl

/-- C3 counterexample: running the same instance twice over a one-file
directory leaves a two-row table (and reports 2) where a single run leaves
one row (and reports 1) — rows do accumulate across calls. -/
theorem run_twice_duplicates_cex :
    run [fileB] ETL.init "events" false Store.absent = Except.ok c3FirstOut ∧
    run [fileB] c3FirstOut.1 "events" false c3FirstOut.2.2 = Except.ok c3SecondOut ∧
    getTable c3SecondOut.2.2 "events" ≠ getTable c3FirstOut.2.2 "events" ∧
    c3SecondOut.2.1 ≠ c3FirstOut.2.1 := by
  exact ⟨rfl, rfl, by decide, by decide⟩

/-- C3 witness: on the one-file directory the second run reports twice the
first run's count and persists a table with twice the rows. -/
theorem run_twice_doubles_count_witness :
    (run [fileB] ETL.init "events" false Store.absent = Except.ok c3FirstOut ∧
     run [fileB] c3FirstOut.1 "events" false c3FirstOut.2.2 = Except.ok c3SecondOut) ∧
    (c3SecondOut.2.1 = 2 * c3FirstOut.2.1 ∧
     (c3FirstOut.2.1 ≠ 0 → ∃ df, getTable c3SecondOut.2.2 "events" = some df ∧
        df.rows.length = 2 * c3FirstOut.2.1)) :=
  ⟨⟨rfl, rfl⟩, @run_twice_doubles_count [fileB] "events" c3FirstOut c3SecondOut rfl rfl⟩
